import Mathlib

/-!
Shallow embedding of the proof subsystem of the `honestly` repository:
the circom circuits (`age_level3.circom`, `agent_reputation.circom`,
the humanity circuit file) and the TypeScript identity / group / nullifier
machinery (`conductme/bridge/src/identity.ts`).

Field elements are `Nat` values taken modulo the BN254 scalar-field prime
`p`; every field operation reduces with `% p` explicitly.  The Poseidon
hash is modelled as an abstract parameter `h : List Nat → Nat` (a call of
arity `k` passes a `k`-element list); its output is a field element, so
every use site reduces it with `% p`.  The circomlib comparator templates
(`Num2Bits`, `LessThan`, `GreaterThan`, `GreaterEqThan`, `LessEqThan`)
are embedded by their exact satisfiability conditions: `Num2Bits(n)` on
input `x` has a satisfying assignment of its bit signals if and only if
the canonical value of `x` is below `2^n`, and the single output bit used
by `LessThan(n)` (bit `n` of the `(n+1)`-bit decomposition of
`in[0] + 2^n - in[1]`) is the quotient by `2^n` of that decomposed value.
-/

namespace Honestly

/-- BN254 scalar-field prime: the modulus of every circuit signal. -/
def p : Nat := 21888242871839275222246405745257275088548364400416034343698204186575808495617

/-- Poseidon is treated as an abstract hash family over field-element lists. -/
abbrev Hash := List Nat → Nat

/-- Field addition. -/
def fadd (a b : Nat) : Nat := (a + b) % p

/-- Field multiplication. -/
def fmul (a b : Nat) : Nat := (a * b) % p

/-- Field subtraction: canonical representative of `a - b (mod p)`. -/
def fsub (a b : Nat) : Nat := (a % p + (p - b % p)) % p

/-- Satisfiability of circomlib `Num2Bits(n)` with input `x`: the bit
signals exist precisely when the canonical value of `x` fits in `n` bits
(for `n + 1 ≤ 253` the powers of two involved stay below `p`). -/
def num2bitsSat (n x : Nat) : Bool := x % p < 2 ^ n

/-- Field value fed to the `Num2Bits(k+1)` component inside circomlib
`LessThan(k)`: `in[0] + 2^k - in[1]` computed in the field. -/
def ltArg (k a b : Nat) : Nat := (a % p + 2 ^ k + (p - b % p)) % p

/-- Satisfiability of the `LessThan(k)` template body (the `Num2Bits(k+1)`
decomposition of `ltArg`). -/
def ltSat (k a b : Nat) : Bool := ltArg k a b < 2 ^ (k + 1)

/-- Output signal of `LessThan(k)`: `1 - bits[k]`, where `bits[k]` is the
top bit of the `(k+1)`-bit decomposition of `ltArg k a b`. -/
def ltOut (k a b : Nat) : Nat := fsub 1 (ltArg k a b / 2 ^ k)

/-- circomlib `GreaterThan(k)` is `LessThan(k)` with the inputs swapped. -/
def gtSat (k a b : Nat) : Bool := ltSat k b a

/-- Output signal of `GreaterThan(k)`. -/
def gtOut (k a b : Nat) : Nat := ltOut k b a

/-- circomlib `GreaterEqThan(k)` is `LessThan(k)` applied to
`(in[1], in[0] + 1)`. -/
def geqSat (k a b : Nat) : Bool := ltSat k b ((a + 1) % p)

/-- Output signal of `GreaterEqThan(k)`. -/
def geqOut (k a b : Nat) : Nat := ltOut k b ((a + 1) % p)

/-- circomlib `LessEqThan(k)` is `LessThan(k)` applied to
`(in[0], in[1] + 1)`. -/
def leqSat (k a b : Nat) : Bool := ltSat k a ((b + 1) % p)

/-- Output signal of `LessEqThan(k)`. -/
def leqOut (k a b : Nat) : Nat := ltOut k a ((b + 1) % p)

/-! ## Age Level 3 circuit (`backend-python/zkp/circuits/age_level3.circom`) -/

/-- Input signals of `AgeProofLevel3`: `birthTs`, `salt` private;
`referenceTs`, `minAge`, `userID`, `documentHash` public. -/
structure AgeL3Witness where
  birthTs : Nat
  salt : Nat
  referenceTs : Nat
  minAge : Nat
  userID : Nat
  documentHash : Nat
deriving Repr, DecidableEq

/-- Intermediate signal `ageSeconds <== referenceTs - birthTs`. -/
def AgeL3Witness.ageSeconds (w : AgeL3Witness) : Nat := fsub w.referenceTs w.birthTs

/-- Intermediate signal `ageYearsScaled <== ageSeconds * 10000`. -/
def AgeL3Witness.ageYearsScaled (w : AgeL3Witness) : Nat := fmul w.ageSeconds 10000

/-- The field expression `minAge * 10000` fed to `ageCheck.in[1]`. -/
def AgeL3Witness.minAgeScaled (w : AgeL3Witness) : Nat := fmul w.minAge 10000

/-- All input signals are field elements (canonically reduced). -/
def AgeL3Witness.wf (w : AgeL3Witness) : Bool :=
  w.birthTs < p && w.salt < p && w.referenceTs < p && w.minAge < p &&
  w.userID < p && w.documentHash < p

/-- The complete constraint set of `AgeProofLevel3`: the
`GreaterThan(32)` component on `(ageYearsScaled, minAge * 10000)` with
`ageCheck.out === 1` enforced, and the `Num2Bits(32)` range check on
`ageYearsScaled`.  The Poseidon component only defines the `nullifier`
output and is always satisfiable. -/
def ageLevel3Holds (w : AgeL3Witness) : Bool :=
  w.wf &&
  gtSat 32 w.ageYearsScaled w.minAgeScaled &&
  gtOut 32 w.ageYearsScaled w.minAgeScaled = 1 &&
  num2bitsSat 32 w.ageYearsScaled

/-- Output signal `verified <== ageCheck.out`. -/
def ageLevel3Verified (w : AgeL3Witness) : Nat :=
  gtOut 32 w.ageYearsScaled w.minAgeScaled

/-- Output signal `nullifier`: Poseidon over
`(birthTs, salt, userID, documentHash)`. -/
def ageLevel3Nullifier (h : Hash) (w : AgeL3Witness) : Nat :=
  h [w.birthTs, w.salt, w.userID, w.documentHash] % p

/-! ## Arithmetic facts about the embedded comparators -/

lemma p_pos : 0 < p := by decide

lemma fmul_lt (a b : Nat) : fmul a b < p := Nat.mod_lt _ p_pos

lemma fsub_lt_p (a b : Nat) : fsub a b < p := Nat.mod_lt _ p_pos

lemma fsub_one_zero : fsub 1 0 = 1 := by decide

lemma fsub_one_one : fsub 1 1 = 0 := by decide

/-- When no wraparound occurs, `ltArg` is the plain integer
`x + 2^k - y`. -/
lemma ltArg_eq (k x y : Nat) (hx : x < p) (hy : y < p)
    (h1 : y ≤ x + 2 ^ k) (h2 : x + 2 ^ k - y < p) :
    ltArg k x y = x + 2 ^ k - y := by
  unfold ltArg
  rw [Nat.mod_eq_of_lt hx, Nat.mod_eq_of_lt hy]
  have hsum : x + 2 ^ k + (p - y) = p + (x + 2 ^ k - y) := by omega
  rw [hsum, Nat.add_mod_left, Nat.mod_eq_of_lt h2]

/-- The constraint `out === 1` on a `LessThan(k)`-shaped output forces
the top bit of the decomposition to vanish. -/
lemma ltOut_one_div (k x y : Nat) (hv : ltArg k x y < 2 ^ (k + 1))
    (hout : ltOut k x y = 1) : ltArg k x y / 2 ^ k = 0 := by
  have hcases : ltArg k x y / 2 ^ k = 0 ∨ ltArg k x y / 2 ^ k = 1 := by
    have h2k : 0 < 2 ^ k := Nat.pos_pow_of_pos k (by omega)
    have hlt2 : ltArg k x y / 2 ^ k < 2 := by
      rw [Nat.div_lt_iff_lt_mul h2k]
      calc ltArg k x y < 2 ^ (k + 1) := hv
      _ = 2 * 2 ^ k := by rw [Nat.pow_succ]; ring
    rcases Nat.lt_succ_iff_lt_or_eq.mp hlt2 with h | h
    · exact Or.inl (Nat.lt_one_iff.mp h)
    · exact Or.inr h
  rcases hcases with h0 | h1
  · exact h0
  · rw [ltOut, h1, fsub_one_one] at hout
    exact absurd hout (by omega)

/-! ## C1 and C2: Age Level 3 soundness and range checking -/

/-- C1: provided the public threshold expression `minAge * 10000` fits in
the 32-bit comparison width (so the `GreaterThan(32)` comparison is
meaningful), every accepted witness of `AgeProofLevel3` has its scaled
age strictly greater than the scaled minimum age, its `nullifier` output
equal to `Hash(birthTs, salt, userID, documentHash)`, and its `verified`
output equal to `1`. -/
theorem ageLevel3_accept_sound (h : Hash) (w : AgeL3Witness)
    (hMin : w.minAgeScaled < 2 ^ 32)
    (hAcc : ageLevel3Holds w = true) :
    w.minAgeScaled < w.ageYearsScaled ∧
    ageLevel3Nullifier h w = h [w.birthTs, w.salt, w.userID, w.documentHash] % p ∧
    ageLevel3Verified w = 1 := by
  unfold ageLevel3Holds at hAcc
  simp only [Bool.and_eq_true, decide_eq_true_eq] at hAcc
  obtain ⟨⟨⟨hwf, hgt⟩, hout⟩, hn2b⟩ := hAcc
  have hAp : w.ageYearsScaled < p := fmul_lt _ _
  have hBp : w.minAgeScaled < p := fmul_lt _ _
  have hA32 : w.ageYearsScaled < 2 ^ 32 := by
    simp only [num2bitsSat, decide_eq_true_eq] at hn2b
    rwa [Nat.mod_eq_of_lt hAp] at hn2b
  have harg : ltArg 32 w.minAgeScaled w.ageYearsScaled =
      w.minAgeScaled + 2 ^ 32 - w.ageYearsScaled := by
    refine ltArg_eq 32 _ _ hBp hAp (by omega) ?_
    have : (0:Nat) < 2 ^ 32 := by norm_num
    calc w.minAgeScaled + 2 ^ 32 - w.ageYearsScaled ≤ w.minAgeScaled + 2 ^ 32 := by omega
    _ < p := by
        have h32 : (2:Nat) ^ 32 = 4294967296 := by norm_num
        have hp32 : 4294967296 + 4294967296 < p := by decide
        omega
  have hdiv : ltArg 32 w.minAgeScaled w.ageYearsScaled / 2 ^ 32 = 0 := by
    refine ltOut_one_div 32 _ _ ?_ hout
    rw [harg]
    have h32 : (2:Nat) ^ 32 = 4294967296 := by norm_num
    have h33 : (2:Nat) ^ 33 = 8589934592 := by norm_num
    omega
  have hlt : w.minAgeScaled < w.ageYearsScaled := by
    rw [harg] at hdiv
    have h32 : (2:Nat) ^ 32 = 4294967296 := by norm_num
    omega
  exact ⟨hlt, rfl, hout⟩

/-- Witness for C1: a concrete accepted witness (birth at 0, reference
time 20, minimum age 1) satisfying both hypotheses. -/
theorem ageLevel3_accept_sound_witness :
    AgeL3Witness.minAgeScaled ⟨0, 0, 20, 1, 0, 0⟩ < 2 ^ 32 ∧
    ageLevel3Holds ⟨0, 0, 20, 1, 0, 0⟩ = true ∧
    AgeL3Witness.minAgeScaled ⟨0, 0, 20, 1, 0, 0⟩ <
      AgeL3Witness.ageYearsScaled ⟨0, 0, 20, 1, 0, 0⟩ :=
  ⟨by decide, by decide,
    (ageLevel3_accept_sound (fun _ => 0) ⟨0, 0, 20, 1, 0, 0⟩
      (by decide) (by decide)).1⟩

/-- C2 counterexample: an accepted witness whose `minAge * 10000`
comparison operand lies above `2^32` (indeed just below the modulus), so
the second operand of the inequality is not range-checked: were both
operands range-checked to 32 bits as claimed, this witness would be
unsatisfiable. -/
theorem ageLevel3_minAge_not_rangechecked :
    ageLevel3Holds ⟨0, 0, 0, p - 1, 0, 0⟩ = true ∧
    2 ^ 32 ≤ AgeL3Witness.minAgeScaled ⟨0, 0, 0, p - 1, 0, 0⟩ := by
  constructor
  · decide
  · decide

/-- C2 (amended): the scaled-age operand `ageYearsScaled` is explicitly
range-checked by `Num2Bits(32)`, so any witness whose scaled age does
not fit in 32 bits is unsatisfiable; the `minAge * 10000` operand is not
itself range-checked. -/
theorem ageLevel3_scaledAge_rangechecked (w : AgeL3Witness)
    (hAcc : ageLevel3Holds w = true) : w.ageYearsScaled < 2 ^ 32 := by
  unfold ageLevel3Holds at hAcc
  simp only [Bool.and_eq_true, decide_eq_true_eq] at hAcc
  obtain ⟨-, hn2b⟩ := hAcc
  have hAp : w.ageYearsScaled < p := fmul_lt _ _
  simp only [num2bitsSat, decide_eq_true_eq] at hn2b
  rwa [Nat.mod_eq_of_lt hAp] at hn2b

/-- Witness for the amended C2 at a concrete accepted witness. -/
theorem ageLevel3_scaledAge_rangechecked_witness :
    ageLevel3Holds ⟨0, 0, 20, 1, 0, 0⟩ = true ∧
    AgeL3Witness.ageYearsScaled ⟨0, 0, 20, 1, 0, 0⟩ < 2 ^ 32 :=
  ⟨by decide, ageLevel3_scaledAge_rangechecked ⟨0, 0, 20, 1, 0, 0⟩ (by decide)⟩

/-- Helper: `ltArg` below `2^k` forces the `LessThan`-style output to `1`. -/
lemma ltOut_eq_one (k x y : Nat) (hv : ltArg k x y < 2 ^ k) : ltOut k x y = 1 := by
  unfold ltOut
  rw [Nat.div_eq_of_lt hv, fsub_one_zero]

/-- Helper: `ltArg` below `2^k` satisfies the `Num2Bits(k+1)` decomposition. -/
lemma ltSat_of_lt (k x y : Nat) (hv : ltArg k x y < 2 ^ k) : ltSat k x y = true := by
  unfold ltSat
  rw [decide_eq_true_eq]
  calc ltArg k x y < 2 ^ k := hv
  _ < 2 ^ (k + 1) := Nat.pow_lt_pow_right (by omega) (Nat.lt_succ_self k)

/-! ## Agent Reputation circuit
(`backend-python/zkp/circuits/agent_reputation.circom`, instantiated as
`AgentReputation(7)`) -/

/-- Input signals of `AgentReputation(7)`: `reputationScore`, `salt`,
`interactionCount`, `positiveCount` private; `threshold`, `agentDIDHash`,
`timestamp` public. -/
structure RepWitness where
  reputationScore : Nat
  salt : Nat
  interactionCount : Nat
  positiveCount : Nat
  threshold : Nat
  agentDIDHash : Nat
  timestamp : Nat
deriving Repr, DecidableEq

/-- All input signals are field elements. -/
def RepWitness.wf (w : RepWitness) : Bool :=
  w.reputationScore < p && w.salt < p && w.interactionCount < p &&
  w.positiveCount < p && w.threshold < p && w.agentDIDHash < p && w.timestamp < p

/-- The complete constraint set of `AgentReputation(7)`: `Num2Bits(7)`
range checks on `reputationScore` and `threshold`, the `GreaterEqThan(7)`
component on `(reputationScore, threshold)`, with `verified <== gte.out`
and the hard constraint `verified === 1`.  The two Poseidon components
only define the `reputationCommitment` and `nullifier` outputs and are
always satisfiable. -/
def agentReputationHolds (w : RepWitness) : Bool :=
  w.wf &&
  num2bitsSat 7 w.reputationScore &&
  num2bitsSat 7 w.threshold &&
  geqSat 7 w.reputationScore w.threshold &&
  geqOut 7 w.reputationScore w.threshold = 1

/-- Output signal `verified <== gte.out`. -/
def agentReputationVerified (w : RepWitness) : Nat :=
  geqOut 7 w.reputationScore w.threshold

/-- Output signal `reputationCommitment`: Poseidon over
`(reputationScore, interactionCount, positiveCount, salt)`. -/
def agentReputationCommitment (h : Hash) (w : RepWitness) : Nat :=
  h [w.reputationScore, w.interactionCount, w.positiveCount, w.salt] % p

/-- Output signal `nullifier`: Poseidon over
`(agentDIDHash, threshold, salt, timestamp)`. -/
def agentReputationNullifier (h : Hash) (w : RepWitness) : Nat :=
  h [w.agentDIDHash, w.threshold, w.salt, w.timestamp] % p

/-- C5: every accepted witness of `AgentReputation(7)` has both
`reputationScore` and `threshold` range-checked into 7 bits, satisfies
`reputationScore >= threshold`, has `reputationCommitment` equal to
`Hash(reputationScore, interactionCount, positiveCount, salt)`, and has
`verified = 1`; contrapositively, no witness with in-range
`reputationScore < threshold` satisfies the constraint set, because
`verified === 1` is a hard constraint. -/
theorem agentReputation_accept_sound (h : Hash) (w : RepWitness)
    (hAcc : agentReputationHolds w = true) :
    w.reputationScore < 2 ^ 7 ∧ w.threshold < 2 ^ 7 ∧
    w.threshold ≤ w.reputationScore ∧
    agentReputationCommitment h w =
      h [w.reputationScore, w.interactionCount, w.positiveCount, w.salt] % p ∧
    agentReputationVerified w = 1 := by
  unfold agentReputationHolds at hAcc
  simp only [Bool.and_eq_true, decide_eq_true_eq] at hAcc
  obtain ⟨⟨⟨⟨hwf, hs7⟩, ht7⟩, hsat⟩, hout⟩ := hAcc
  unfold RepWitness.wf at hwf
  simp only [Bool.and_eq_true, decide_eq_true_eq] at hwf
  have hsp : w.reputationScore < p := by tauto
  have htp : w.threshold < p := by tauto
  have hs128 : w.reputationScore < 2 ^ 7 := by
    simp only [num2bitsSat, decide_eq_true_eq] at hs7
    rwa [Nat.mod_eq_of_lt hsp] at hs7
  have ht128 : w.threshold < 2 ^ 7 := by
    simp only [num2bitsSat, decide_eq_true_eq] at ht7
    rwa [Nat.mod_eq_of_lt htp] at ht7
  have h7 : (2:Nat) ^ 7 = 128 := by norm_num
  have hsucc : (w.reputationScore + 1) % p = w.reputationScore + 1 := by
    apply Nat.mod_eq_of_lt
    have : (128:Nat) < p := by decide
    omega
  have harg : ltArg 7 w.threshold ((w.reputationScore + 1) % p) =
      w.threshold + 2 ^ 7 - (w.reputationScore + 1) := by
    rw [hsucc]
    refine ltArg_eq 7 _ _ htp ?_ (by omega) ?_
    · have : (128:Nat) < p := by decide
      omega
    · have : (256:Nat) < p := by decide
      omega
  have hdiv : ltArg 7 w.threshold ((w.reputationScore + 1) % p) / 2 ^ 7 = 0 := by
    refine ltOut_one_div 7 _ _ ?_ hout
    rw [harg]
    have h8 : (2:Nat) ^ 8 = 256 := by norm_num
    omega
  refine ⟨hs128, ht128, ?_, rfl, hout⟩
  rw [harg] at hdiv
  have := Nat.div_eq_zero_iff (by norm_num : (0:Nat) < 2 ^ 7) |>.mp hdiv
  omega

/-- Witness for C5: a concrete accepted witness (score 50, threshold 30). -/
theorem agentReputation_accept_sound_witness :
    agentReputationHolds ⟨50, 3, 10, 8, 30, 7, 1000⟩ = true ∧
    (30:Nat) ≤ 50 :=
  ⟨by decide,
    (agentReputation_accept_sound (fun _ => 0)
      ⟨50, 3, 10, 8, 30, 7, 1000⟩ (by decide)).2.2.1⟩

/-- C10: the `nullifier` output of `AgentReputation(7)` is
`Hash(agentDIDHash, threshold, salt, timestamp)`, so any two accepted
witnesses agreeing on those four signals produce the same nullifier no
matter how their private `reputationScore`, `interactionCount` and
`positiveCount` differ. -/
theorem agentReputation_nullifier_independent (h : Hash) (w1 w2 : RepWitness)
    (_hAcc1 : agentReputationHolds w1 = true)
    (_hAcc2 : agentReputationHolds w2 = true)
    (hdid : w1.agentDIDHash = w2.agentDIDHash)
    (hth : w1.threshold = w2.threshold)
    (hsalt : w1.salt = w2.salt)
    (hts : w1.timestamp = w2.timestamp) :
    agentReputationNullifier h w1 = agentReputationNullifier h w2 ∧
    agentReputationNullifier h w1 =
      h [w1.agentDIDHash, w1.threshold, w1.salt, w1.timestamp] % p := by
  unfold agentReputationNullifier
  rw [hdid, hth, hsalt, hts]
  exact ⟨rfl, rfl⟩

/-- Witness for C10: two concrete accepted witnesses with different
private reputation data but identical public data and salt. -/
theorem agentReputation_nullifier_independent_witness :
    agentReputationHolds ⟨50, 3, 10, 8, 30, 7, 1000⟩ = true ∧
    agentReputationHolds ⟨90, 3, 40, 39, 30, 7, 1000⟩ = true ∧
    agentReputationNullifier (fun l => l.foldl fadd 0) ⟨50, 3, 10, 8, 30, 7, 1000⟩ =
      agentReputationNullifier (fun l => l.foldl fadd 0) ⟨90, 3, 40, 39, 30, 7, 1000⟩ :=
  ⟨by decide, by decide,
    (agentReputation_nullifier_independent (fun l => l.foldl fadd 0)
      ⟨50, 3, 10, 8, 30, 7, 1000⟩ ⟨90, 3, 40, 39, 30, 7, 1000⟩
      (by decide) (by decide) rfl rfl rfl rfl).1⟩

/-! ## Proof of Humanity circuit (the `ProofOfHumanity` template of the
humanity circuit file, instantiated as the main component) -/

/-- Helper: when no wraparound occurs, `fsub` is plain subtraction. -/
lemma fsub_eq (a b : Nat) (ha : a < p) (hb : b ≤ a) : fsub a b = a - b := by
  unfold fsub
  rw [Nat.mod_eq_of_lt ha, Nat.mod_eq_of_lt (lt_of_le_of_lt hb ha)]
  have hsum : a + (p - b) = p + (a - b) := by omega
  rw [hsum, Nat.add_mod_left, Nat.mod_eq_of_lt (by omega)]

/-- Input signals of `ProofOfHumanity`: `identitySecret`, `livenessNonce`,
`livenessResult`, `biometricHash`, `credentialHash` private;
`identityCommitment`, `timestamp`, `maxAge`, `currentTime`, `scope`,
`externalNullifier` public. -/
structure HumanityWitness where
  identitySecret : Nat
  livenessNonce : Nat
  livenessResult : Nat
  biometricHash : Nat
  credentialHash : Nat
  identityCommitment : Nat
  timestamp : Nat
  maxAge : Nat
  currentTime : Nat
  scope : Nat
  externalNullifier : Nat
deriving Repr, DecidableEq

/-- All input signals are field elements. -/
def HumanityWitness.wf (w : HumanityWitness) : Bool :=
  w.identitySecret < p && w.livenessNonce < p && w.livenessResult < p &&
  w.biometricHash < p && w.credentialHash < p && w.identityCommitment < p &&
  w.timestamp < p && w.maxAge < p && w.currentTime < p && w.scope < p &&
  w.externalNullifier < p

/-- Intermediate signal `age <== currentTime - timestamp`. -/
def HumanityWitness.age (w : HumanityWitness) : Nat :=
  fsub w.currentTime w.timestamp

/-- The complete constraint set of `ProofOfHumanity`:
`identityHasher.out === identityCommitment`; `livenessValid === 1` on
`livenessValid <== livenessResult`; the `LessThan(64)` component on
`(age, maxAge)` with `ageCheck.out === 1`; the `LessEqThan(64)` component
on `(timestamp, currentTime)` with `notFuture.out === 1`.  The liveness,
credential, nullifier and humanity Poseidon components only define
outputs (their outputs are unconstrained) and are always satisfiable. -/
def humanityHolds (h : Hash) (w : HumanityWitness) : Bool :=
  w.wf &&
  h [w.identitySecret] % p = w.identityCommitment &&
  w.livenessResult = 1 &&
  ltSat 64 w.age w.maxAge &&
  ltOut 64 w.age w.maxAge = 1 &&
  leqSat 64 w.timestamp w.currentTime &&
  leqOut 64 w.timestamp w.currentTime = 1

/-- Output signal `nullifierHash`: Poseidon over
`(identitySecret, scope, externalNullifier)`. -/
def humanityNullifier (h : Hash) (w : HumanityWitness) : Nat :=
  h [w.identitySecret, w.scope, w.externalNullifier] % p

/-- C3: under the canonical 64-bit range of the public time inputs (the
bit width of the comparators), a witness of `ProofOfHumanity` is accepted
if and only if `Hash(identitySecret) = identityCommitment`,
`livenessResult = 1`, `timestamp ≤ currentTime` (so the age
`currentTime - timestamp` is at least `0`) and
`currentTime - timestamp < maxAge`; and the `nullifierHash` output equals
`Hash(identitySecret, scope, externalNullifier)`. -/
theorem humanity_accept_iff (h : Hash) (w : HumanityWitness)
    (hwf : w.wf = true)
    (hts : w.timestamp < 2 ^ 64)
    (hct : w.currentTime < 2 ^ 64)
    (hma : w.maxAge < 2 ^ 64) :
    (humanityHolds h w = true ↔
      (h [w.identitySecret] % p = w.identityCommitment ∧
       w.livenessResult = 1 ∧
       w.timestamp ≤ w.currentTime ∧
       w.currentTime - w.timestamp < w.maxAge)) ∧
    humanityNullifier h w = h [w.identitySecret, w.scope, w.externalNullifier] % p := by
  have h64 : (2:Nat) ^ 64 = 18446744073709551616 := by norm_num
  have hp64 : 2 ^ 64 + 2 ^ 64 < p := by rw [h64]; decide
  have hctp : w.currentTime < p := by omega
  have htsp : w.timestamp < p := by omega
  have hmap : w.maxAge < p := by omega
  have hsucc : (w.currentTime + 1) % p = w.currentTime + 1 :=
    Nat.mod_eq_of_lt (by omega)
  have hargF : ltArg 64 w.timestamp ((w.currentTime + 1) % p) =
      w.timestamp + 2 ^ 64 - (w.currentTime + 1) := by
    rw [hsucc]
    exact ltArg_eq 64 _ _ htsp (by omega) (by omega) (by omega)
  refine ⟨⟨fun hAcc => ?_, fun hconds => ?_⟩, rfl⟩
  · unfold humanityHolds at hAcc
    simp only [Bool.and_eq_true, decide_eq_true_eq] at hAcc
    obtain ⟨⟨⟨⟨⟨⟨-, hcom⟩, hlive⟩, hageS⟩, hageO⟩, hfutS⟩, hfutO⟩ := hAcc
    have hfutSat : ltSat 64 w.timestamp ((w.currentTime + 1) % p) = true := hfutS
    have hdivF : ltArg 64 w.timestamp ((w.currentTime + 1) % p) / 2 ^ 64 = 0 := by
      refine ltOut_one_div 64 _ _ ?_ hfutO
      rw [hargF]
      have h65 : (2:Nat) ^ 65 = 36893488147419103232 := by norm_num
      omega
    rw [hargF] at hdivF
    have hle : w.timestamp ≤ w.currentTime := by
      have := Nat.div_eq_zero_iff (by norm_num : (0:Nat) < 2 ^ 64) |>.mp hdivF
      omega
    have hage : w.age = w.currentTime - w.timestamp := fsub_eq _ _ hctp hle
    have hargA : ltArg 64 w.age w.maxAge =
        (w.currentTime - w.timestamp) + 2 ^ 64 - w.maxAge := by
      rw [hage]
      exact ltArg_eq 64 _ _ (by omega) hmap (by omega) (by omega)
    have hdivA : ltArg 64 w.age w.maxAge / 2 ^ 64 = 0 := by
      refine ltOut_one_div 64 _ _ ?_ hageO
      rw [hargA]
      have h65 : (2:Nat) ^ 65 = 36893488147419103232 := by norm_num
      omega
    rw [hargA] at hdivA
    have hfresh : w.currentTime - w.timestamp < w.maxAge := by
      have := Nat.div_eq_zero_iff (by norm_num : (0:Nat) < 2 ^ 64) |>.mp hdivA
      omega
    exact ⟨hcom, hlive, hle, hfresh⟩
  · obtain ⟨hcom, hlive, hle, hfresh⟩ := hconds
    have hage : w.age = w.currentTime - w.timestamp := fsub_eq _ _ hctp hle
    have hargA : ltArg 64 w.age w.maxAge =
        (w.currentTime - w.timestamp) + 2 ^ 64 - w.maxAge := by
      rw [hage]
      exact ltArg_eq 64 _ _ (by omega) hmap (by omega) (by omega)
    have hvA : ltArg 64 w.age w.maxAge < 2 ^ 64 := by rw [hargA]; omega
    have hvF : ltArg 64 w.timestamp ((w.currentTime + 1) % p) < 2 ^ 64 := by
      rw [hargF]; omega
    unfold humanityHolds
    simp only [Bool.and_eq_true, decide_eq_true_eq]
    exact ⟨⟨⟨⟨⟨⟨hwf, hcom⟩, hlive⟩, ltSat_of_lt 64 _ _ hvA⟩,
      ltOut_eq_one 64 _ _ hvA⟩, ltSat_of_lt 64 _ _ hvF⟩,
      ltOut_eq_one 64 _ _ hvF⟩

/-- Witness for C3: a concrete witness accepted through the iff (secret
0 whose hash-commitment matches, liveness passed, timestamp 100 against
current time 200 inside a window of 300). -/
theorem humanity_accept_iff_witness :
    humanityHolds (fun l => l.foldl fadd 0) ⟨0, 0, 1, 0, 0, 0, 100, 300, 200, 5, 6⟩ = true :=
  ((humanity_accept_iff (fun l => l.foldl fadd 0) ⟨0, 0, 1, 0, 0, 0, 100, 300, 200, 5, 6⟩
    (by decide) (by decide) (by decide) (by decide)).1).mpr
    ⟨by decide, rfl, by decide, by decide⟩

/-! ## Primality of the BN254 scalar-field modulus

The membership circuit constrains each path index `i` by
`i * (i - 1) === 0`, which pins `i` to `{0, 1}` only because the modulus
has no zero divisors.  We certify `Nat.Prime p` through
`lucas_primality` with a Pratt-style certificate chain; the modular
exponentiations are evaluated by a fuel-indexed fast-power function so
the kernel can check them. -/

set_option maxRecDepth 100000

def powModAux : Nat → Nat → Nat → Nat → Nat
  | 0, _, _, n => 1 % n
  | fuel+1, a, e, n =>
    if e = 0 then 1 % n
    else
      let r := powModAux fuel a (e / 2) n
      if e % 2 = 0 then r * r % n else r * r % n * a % n

/-- Fast modular exponentiation; 300 bits of fuel cover every exponent
below. -/
def powMod (a e n : Nat) : Nat := powModAux 300 a e n

lemma powModAux_correct (n a : Nat) :
    ∀ fuel e, e < 2 ^ fuel → powModAux fuel a e n = a ^ e % n := by
  intro fuel
  induction fuel with
  | zero =>
    intro e he
    interval_cases e
    simp [powModAux]
  | succ f ih =>
    intro e he
    by_cases h0 : e = 0
    · subst h0; simp [powModAux]
    · have hpow : (2:Nat) ^ (f + 1) = 2 * 2 ^ f := by rw [Nat.pow_succ]; ring
      have hhalf : e / 2 < 2 ^ f := by omega
      have hr := ih (e / 2) hhalf
      by_cases hpar : e % 2 = 0
      · have he2 : e = e / 2 + e / 2 := by omega
        simp only [powModAux, if_neg h0, if_pos hpar, hr]
        conv_rhs => rw [he2, pow_add, Nat.mul_mod]
      · have he2 : e = e / 2 + e / 2 + 1 := by omega
        simp only [powModAux, if_neg h0, if_neg hpar, hr]
        calc a ^ (e / 2) % n * (a ^ (e / 2) % n) % n * a % n
            = a ^ (e / 2) * a ^ (e / 2) % n * a % n := by rw [← Nat.mul_mod]
          _ = a ^ (e / 2) * a ^ (e / 2) * a % n := by rw [Nat.mod_mul_mod]
          _ = a ^ e % n := by
              conv_rhs => rw [he2, pow_succ, pow_add]

lemma powModAux_lt (fuel a e n : Nat) (hn : 0 < n) : powModAux fuel a e n < n := by
  cases fuel with
  | zero => exact Nat.mod_lt _ hn
  | succ f =>
    by_cases h0 : e = 0
    · simp only [powModAux, if_pos h0]
      exact Nat.mod_lt _ hn
    · by_cases hpar : e % 2 = 0
      · simp only [powModAux, if_neg h0, if_pos hpar]
        exact Nat.mod_lt _ hn
      · simp only [powModAux, if_neg h0, if_neg hpar]
        exact Nat.mod_lt _ hn

lemma zmod_powMod_eq (n a e : Nat) (he : e < 2 ^ 300) :
    ((a : Nat) : ZMod n) ^ e = ((powMod a e n : Nat) : ZMod n) := by
  rw [powMod, powModAux_correct n a 300 e he, ZMod.natCast_mod, Nat.cast_pow]

lemma zmod_powMod_eq_one (n a e : Nat) (he : e < 2 ^ 300)
    (h : powMod a e n = 1) : ((a : Nat) : ZMod n) ^ e = 1 := by
  rw [zmod_powMod_eq n a e he, h, Nat.cast_one]

lemma zmod_powMod_ne_one (n a e : Nat) (hn : 1 < n) (he : e < 2 ^ 300)
    (h1 : powMod a e n ≠ 1) : ((a : Nat) : ZMod n) ^ e ≠ 1 := by
  rw [zmod_powMod_eq n a e he]
  intro hc
  apply h1
  have hlt : powMod a e n < n := powModAux_lt 300 a e n (by omega)
  have hval : ((powMod a e n : Nat) : ZMod n).val = powMod a e n :=
    ZMod.val_cast_of_lt hlt
  have hone : (((1:Nat)) : ZMod n).val = 1 := ZMod.val_cast_of_lt hn
  rw [← Nat.cast_one] at hc
  rw [hc, hone] at hval
  exact hval.symm

lemma prime_eq_of_dvd (q f : Nat) (hq : q.Prime) (hf : f.Prime) (h : q ∣ f) : q = f :=
  (Nat.prime_dvd_prime_iff_eq hq hf).mp h

lemma prime_eq_of_dvd_pow (q f k : Nat) (hq : q.Prime) (hf : f.Prime)
    (h : q ∣ f ^ k) : q = f :=
  (Nat.prime_dvd_prime_iff_eq hq hf).mp (hq.dvd_of_dvd_pow h)

lemma prime_405928799 : Nat.Prime 405928799 := by
  have hf : (405928799:Nat) - 1 = 2 * 11 * 3691 * 4999 := by norm_num
  refine lucas_primality _ ((22 : Nat) : ZMod 405928799) ?_ ?_
  · exact zmod_powMod_eq_one _ _ _ (by decide) (by decide)
  · intro q hq hdvd
    rw [hf] at hdvd
    rcases (Nat.Prime.dvd_mul hq).mp hdvd with hd | hd
    · rcases (Nat.Prime.dvd_mul hq).mp hd with hd2 | hd2
      · rcases (Nat.Prime.dvd_mul hq).mp hd2 with hd3 | hd3
        · have he := prime_eq_of_dvd q 2 hq (by norm_num) hd3
          subst he
          exact zmod_powMod_ne_one _ _ _ (by norm_num) (by decide) (by decide)
        · have he := prime_eq_of_dvd q 11 hq (by norm_num) hd3
          subst he
          exact zmod_powMod_ne_one _ _ _ (by norm_num) (by decide) (by decide)
      · have he := prime_eq_of_dvd q 3691 hq (by norm_num) hd2
        subst he
        exact zmod_powMod_ne_one _ _ _ (by norm_num) (by decide) (by decide)
    · have he := prime_eq_of_dvd q 4999 hq (by norm_num) hd
      subst he
      exact zmod_powMod_ne_one _ _ _ (by norm_num) (by decide) (by decide)

lemma prime_639533339 : Nat.Prime 639533339 := by
  have hf : (639533339:Nat) - 1 = 2 * 229 * 853 * 1637 := by norm_num
  refine lucas_primality _ ((2 : Nat) : ZMod 639533339) ?_ ?_
  · exact zmod_powMod_eq_one _ _ _ (by decide) (by decide)
  · intro q hq hdvd
    rw [hf] at hdvd
    rcases (Nat.Prime.dvd_mul hq).mp hdvd with hd | hd
    · rcases (Nat.Prime.dvd_mul hq).mp hd with hd2 | hd2
      · rcases (Nat.Prime.dvd_mul hq).mp hd2 with hd3 | hd3
        · have he := prime_eq_of_dvd q 2 hq (by norm_num) hd3
          subst he
          exact zmod_powMod_ne_one _ _ _ (by norm_num) (by decide) (by decide)
        · have he := prime_eq_of_dvd q 229 hq (by norm_num) hd3
          subst he
          exact zmod_powMod_ne_one _ _ _ (by norm_num) (by decide) (by decide)
      · have he := prime_eq_of_dvd q 853 hq (by norm_num) hd2
        subst he
        exact zmod_powMod_ne_one _ _ _ (by norm_num) (by decide) (by decide)
    · have he := prime_eq_of_dvd q 1637 hq (by norm_num) hd
      subst he
      exact zmod_powMod_ne_one _ _ _ (by norm_num) (by decide) (by decide)

lemma prime_12048837557 : Nat.Prime 12048837557 := by
  have hf : (12048837557:Nat) - 1 = 2 ^ 2 * 7 ^ 2 * 661 * 93001 := by norm_num
  refine lucas_primality _ ((2 : Nat) : ZMod 12048837557) ?_ ?_
  · exact zmod_powMod_eq_one _ _ _ (by decide) (by decide)
  · intro q hq hdvd
    rw [hf] at hdvd
    rcases (Nat.Prime.dvd_mul hq).mp hdvd with hd | hd
    · rcases (Nat.Prime.dvd_mul hq).mp hd with hd2 | hd2
      · rcases (Nat.Prime.dvd_mul hq).mp hd2 with hd3 | hd3
        · have he := prime_eq_of_dvd_pow q 2 2 hq (by norm_num) hd3
          subst he
          exact zmod_powMod_ne_one _ _ _ (by norm_num) (by decide) (by decide)
        · have he := prime_eq_of_dvd_pow q 7 2 hq (by norm_num) hd3
          subst he
          exact zmod_powMod_ne_one _ _ _ (by norm_num) (by decide) (by decide)
      · have he := prime_eq_of_dvd q 661 hq (by norm_num) hd2
        subst he
        exact zmod_powMod_ne_one _ _ _ (by norm_num) (by decide) (by decide)
    · have he := prime_eq_of_dvd q 93001 hq (by norm_num) hd
      subst he
      exact zmod_powMod_ne_one _ _ _ (by norm_num) (by decide) (by decide)

lemma prime_5156902474397 : Nat.Prime 5156902474397 := by
  have hf : (5156902474397:Nat) - 1 = 2 ^ 2 * 107 * 12048837557 := by norm_num
  refine lucas_primality _ ((2 : Nat) : ZMod 5156902474397) ?_ ?_
  · exact zmod_powMod_eq_one _ _ _ (by decide) (by decide)
  · intro q hq hdvd
    rw [hf] at hdvd
    rcases (Nat.Prime.dvd_mul hq).mp hdvd with hd | hd
    · rcases (Nat.Prime.dvd_mul hq).mp hd with hd2 | hd2
      · have he := prime_eq_of_dvd_pow q 2 2 hq (by norm_num) hd2
        subst he
        exact zmod_powMod_ne_one _ _ _ (by norm_num) (by decide) (by decide)
      · have he := prime_eq_of_dvd q 107 hq (by norm_num) hd2
        subst he
        exact zmod_powMod_ne_one _ _ _ (by norm_num) (by decide) (by decide)
    · have he := prime_eq_of_dvd q 12048837557 hq prime_12048837557 hd
      subst he
      exact zmod_powMod_ne_one _ _ _ (by norm_num) (by decide) (by decide)

lemma prime_1670836401704629 : Nat.Prime 1670836401704629 := by
  have hf : (1670836401704629:Nat) - 1 = 2 ^ 2 * 3 ^ 4 * 5156902474397 := by norm_num
  refine lucas_primality _ ((2 : Nat) : ZMod 1670836401704629) ?_ ?_
  · exact zmod_powMod_eq_one _ _ _ (by decide) (by decide)
  · intro q hq hdvd
    rw [hf] at hdvd
    rcases (Nat.Prime.dvd_mul hq).mp hdvd with hd | hd
    · rcases (Nat.Prime.dvd_mul hq).mp hd with hd2 | hd2
      · have he := prime_eq_of_dvd_pow q 2 2 hq (by norm_num) hd2
        subst he
        exact zmod_powMod_ne_one _ _ _ (by norm_num) (by decide) (by decide)
      · have he := prime_eq_of_dvd_pow q 3 4 hq (by norm_num) hd2
        subst he
        exact zmod_powMod_ne_one _ _ _ (by norm_num) (by decide) (by decide)
    · have he := prime_eq_of_dvd q 5156902474397 hq prime_5156902474397 hd
      subst he
      exact zmod_powMod_ne_one _ _ _ (by norm_num) (by decide) (by decide)

lemma prime_65865678001877903 : Nat.Prime 65865678001877903 := by
  have hf : (65865678001877903:Nat) - 1 = 2 * 83 * 379 * 1637 * 639533339 := by
    norm_num
  refine lucas_primality _ ((5 : Nat) : ZMod 65865678001877903) ?_ ?_
  · exact zmod_powMod_eq_one _ _ _ (by decide) (by decide)
  · intro q hq hdvd
    rw [hf] at hdvd
    rcases (Nat.Prime.dvd_mul hq).mp hdvd with hd | hd
    · rcases (Nat.Prime.dvd_mul hq).mp hd with hd2 | hd2
      · rcases (Nat.Prime.dvd_mul hq).mp hd2 with hd3 | hd3
        · rcases (Nat.Prime.dvd_mul hq).mp hd3 with hd4 | hd4
          · have he := prime_eq_of_dvd q 2 hq (by norm_num) hd4
            subst he
            exact zmod_powMod_ne_one _ _ _ (by norm_num) (by decide) (by decide)
          · have he := prime_eq_of_dvd q 83 hq (by norm_num) hd4
            subst he
            exact zmod_powMod_ne_one _ _ _ (by norm_num) (by decide) (by decide)
        · have he := prime_eq_of_dvd q 379 hq (by norm_num) hd3
          subst he
          exact zmod_powMod_ne_one _ _ _ (by norm_num) (by decide) (by decide)
      · have he := prime_eq_of_dvd q 1637 hq (by norm_num) hd2
        subst he
        exact zmod_powMod_ne_one _ _ _ (by norm_num) (by decide) (by decide)
    · have he := prime_eq_of_dvd q 639533339 hq prime_639533339 hd
      subst he
      exact zmod_powMod_ne_one _ _ _ (by norm_num) (by decide) (by decide)

lemma prime_13818364434197438864469338081 :
    Nat.Prime 13818364434197438864469338081 := by
  have hf : (13818364434197438864469338081:Nat) - 1 =
      2 ^ 5 * 5 * 823 * 1593227 * 65865678001877903 := by norm_num
  refine lucas_primality _ ((3 : Nat) : ZMod 13818364434197438864469338081) ?_ ?_
  · exact zmod_powMod_eq_one _ _ _ (by decide) (by decide)
  · intro q hq hdvd
    rw [hf] at hdvd
    rcases (Nat.Prime.dvd_mul hq).mp hdvd with hd | hd
    · rcases (Nat.Prime.dvd_mul hq).mp hd with hd2 | hd2
      · rcases (Nat.Prime.dvd_mul hq).mp hd2 with hd3 | hd3
        · rcases (Nat.Prime.dvd_mul hq).mp hd3 with hd4 | hd4
          · have he := prime_eq_of_dvd_pow q 2 5 hq (by norm_num) hd4
            subst he
            exact zmod_powMod_ne_one _ _ _ (by norm_num) (by decide) (by decide)
          · have he := prime_eq_of_dvd q 5 hq (by norm_num) hd4
            subst he
            exact zmod_powMod_ne_one _ _ _ (by norm_num) (by decide) (by decide)
        · have he := prime_eq_of_dvd q 823 hq (by norm_num) hd3
          subst he
          exact zmod_powMod_ne_one _ _ _ (by norm_num) (by decide) (by decide)
      · have he := prime_eq_of_dvd q 1593227 hq (by norm_num) hd2
        subst he
        exact zmod_powMod_ne_one _ _ _ (by norm_num) (by decide) (by decide)
    · have he := prime_eq_of_dvd q 65865678001877903 hq prime_65865678001877903 hd
      subst he
      exact zmod_powMod_ne_one _ _ _ (by norm_num) (by decide) (by decide)

/-- Primality of the BN254 scalar-field modulus, via
`lucas_primality` with generator `5`. -/
lemma p_prime : Nat.Prime p := by
  have hf : p - 1 = 2 ^ 28 * 3 ^ 2 * 13 * 29 * 983 * 11003 * 237073 *
      405928799 * 1670836401704629 * 13818364434197438864469338081 := by
    norm_num [p]
  refine lucas_primality _ ((5 : Nat) : ZMod p) ?_ ?_
  · exact zmod_powMod_eq_one _ _ _ (by decide) (by decide)
  · intro q hq hdvd
    rw [hf] at hdvd
    rcases (Nat.Prime.dvd_mul hq).mp hdvd with hd | hd
    · rcases (Nat.Prime.dvd_mul hq).mp hd with hd2 | hd2
      · rcases (Nat.Prime.dvd_mul hq).mp hd2 with hd3 | hd3
        · rcases (Nat.Prime.dvd_mul hq).mp hd3 with hd4 | hd4
          · rcases (Nat.Prime.dvd_mul hq).mp hd4 with hd5 | hd5
            · rcases (Nat.Prime.dvd_mul hq).mp hd5 with hd6 | hd6
              · rcases (Nat.Prime.dvd_mul hq).mp hd6 with hd7 | hd7
                · rcases (Nat.Prime.dvd_mul hq).mp hd7 with hd8 | hd8
                  · rcases (Nat.Prime.dvd_mul hq).mp hd8 with hd9 | hd9
                    · have he := prime_eq_of_dvd_pow q 2 28 hq (by norm_num) hd9
                      subst he
                      exact zmod_powMod_ne_one _ _ _ (by decide) (by decide) (by decide)
                    · have he := prime_eq_of_dvd_pow q 3 2 hq (by norm_num) hd9
                      subst he
                      exact zmod_powMod_ne_one _ _ _ (by decide) (by decide) (by decide)
                  · have he := prime_eq_of_dvd q 13 hq (by norm_num) hd8
                    subst he
                    exact zmod_powMod_ne_one _ _ _ (by decide) (by decide) (by decide)
                · have he := prime_eq_of_dvd q 29 hq (by norm_num) hd7
                  subst he
                  exact zmod_powMod_ne_one _ _ _ (by decide) (by decide) (by decide)
              · have he := prime_eq_of_dvd q 983 hq (by norm_num) hd6
                subst he
                exact zmod_powMod_ne_one _ _ _ (by decide) (by decide) (by decide)
            · have he := prime_eq_of_dvd q 11003 hq (by norm_num) hd5
              subst he
              exact zmod_powMod_ne_one _ _ _ (by decide) (by decide) (by decide)
          · have he := prime_eq_of_dvd q 237073 hq (by norm_num) hd4
            subst he
            exact zmod_powMod_ne_one _ _ _ (by decide) (by decide) (by decide)
        · have he := prime_eq_of_dvd q 405928799 hq prime_405928799 hd3
          subst he
          exact zmod_powMod_ne_one _ _ _ (by decide) (by decide) (by decide)
      · have he := prime_eq_of_dvd q 1670836401704629 hq prime_1670836401704629 hd2
        subst he
        exact zmod_powMod_ne_one _ _ _ (by decide) (by decide) (by decide)
    · have he := prime_eq_of_dvd q 13818364434197438864469338081 hq
        prime_13818364434197438864469338081 hd
      subst he
      exact zmod_powMod_ne_one _ _ _ (by decide) (by decide) (by decide)

/-! ## Humanity registry circuit (the `HumanityRegistry(levels)` template
of the humanity circuit file)

This circuit is pure field arithmetic, so it is embedded directly over
the scalar field `ZMod p`. -/

/-- The scalar field as a type. -/
abbrev F := ZMod p

/-- Abstract Poseidon over field-element lists. -/
abbrev HashF := List F → F

/-- Input signals of `HumanityRegistry(levels)`: the secret, the sibling
array, the index array, and the claimed root.  The two arrays have length
`levels`. -/
structure MerkleWitness where
  identitySecret : F
  pathElements : List F
  pathIndices : List F
  root : F

/-- One level of the in-circuit path combination, exactly as written in
the source: `left <== cur + idx * (elem - cur)` and
`right <== elem + idx * (cur - elem)`, then hash the pair. -/
def merkleStep (h : HashF) (cur : F) (pe : F × F) : F :=
  h [cur + pe.2 * (pe.1 - cur), pe.1 + pe.2 * (cur - pe.1)]

/-- The `hashIter` chain of the source, folded over (element, index)
pairs. -/
def merkleChain (h : HashF) : F → List (F × F) → F
  | cur, [] => cur
  | cur, pe :: rest => merkleChain h (merkleStep h cur pe) rest

/-- The complete constraint set of `HumanityRegistry`: every path index
satisfies `isRight * (isRight - 1) === 0`, and the final chain value
satisfies `root === hashIter[levels]`, starting from the leaf
`Poseidon(1)(identitySecret)`.  The nullifier and `membershipProof`
Poseidon components only define outputs and are always satisfiable. -/
def registryHolds (h : HashF) (w : MerkleWitness) : Bool :=
  w.pathElements.length = w.pathIndices.length &&
  w.pathIndices.all (fun i => i * (i - 1) = 0) &&
  w.root = merkleChain h (h [w.identitySecret]) (w.pathElements.zip w.pathIndices)

/-- Output signal `nullifier`: Poseidon over `(identitySecret, root)`. -/
def registryNullifier (h : HashF) (w : MerkleWitness) : F :=
  h [w.identitySecret, w.root]

/-- Specification-side membership predicate: at each level the current
node is placed on the left when the path index is `0` and on the right
when it is `1`, and the pair is hashed. -/
def merkleSpecStep (h : HashF) (cur : F) (pe : F × F) : F :=
  if pe.2 = 0 then h [cur, pe.1] else h [pe.1, cur]

/-- Specification-side iterated hashing up the tree. -/
def merkleSpecChain (h : HashF) : F → List (F × F) → F
  | cur, [] => cur
  | cur, pe :: rest => merkleSpecChain h (merkleSpecStep h cur pe) rest

/-- A field element satisfying the in-circuit binarity constraint is `0`
or `1`; this is where primality of `p` is needed. -/
lemma binary_of_constraint (i : F) (hc : i * (i - 1) = 0) : i = 0 ∨ i = 1 := by
  haveI : Fact (Nat.Prime p) := ⟨p_prime⟩
  rcases mul_eq_zero.mp hc with h | h
  · exact Or.inl h
  · exact Or.inr (sub_eq_zero.mp h)

/-- Binary field elements satisfy the in-circuit binarity constraint. -/
lemma constraint_of_binary (i : F) (hb : i = 0 ∨ i = 1) : i * (i - 1) = 0 := by
  rcases hb with h | h <;> subst h <;> ring

/-- Under binarity, the mux-form chain of the source equals the
if-then-else chain of the specification. -/
lemma merkleChain_eq_spec (h : HashF) :
    ∀ (l : List (F × F)) (cur : F), (∀ pe ∈ l, pe.2 = 0 ∨ pe.2 = 1) →
      merkleChain h cur l = merkleSpecChain h cur l := by
  intro l
  induction l with
  | nil => intro cur _; rfl
  | cons pe rest ih =>
    intro cur hbin
    have hstep : merkleStep h cur pe = merkleSpecStep h cur pe := by
      rcases hbin pe (by simp) with h0 | h1
      · simp [merkleStep, merkleSpecStep, h0]
      · have hone : (1 : F) ≠ 0 := by decide
        simp only [merkleStep, merkleSpecStep, h1, if_neg hone, one_mul]
        have hl : cur + (pe.1 - cur) = pe.1 := by ring
        have hr : pe.1 + (cur - pe.1) = cur := by ring
        rw [hl, hr]
    simp only [merkleChain, merkleSpecChain, hstep]
    exact ih _ (fun x hx => hbin x (List.mem_cons_of_mem pe hx))

/-- C6: a witness of `HumanityRegistry` is accepted if and only if every
path index is `0` or `1` and iteratively hashing the (left, right) pairs
up the tree — current node left on index `0`, right on index `1` —
starting from the leaf `Hash(identitySecret)` reproduces `root`
exactly. -/
theorem registry_accept_iff (h : HashF) (w : MerkleWitness)
    (hlen : w.pathElements.length = w.pathIndices.length) :
    registryHolds h w = true ↔
      ((∀ i ∈ w.pathIndices, i = 0 ∨ i = 1) ∧
       w.root = merkleSpecChain h (h [w.identitySecret])
         (w.pathElements.zip w.pathIndices)) := by
  unfold registryHolds
  simp only [Bool.and_eq_true, decide_eq_true_eq, List.all_eq_true]
  constructor
  · rintro ⟨⟨-, hbin⟩, hroot⟩
    have hbin2 : ∀ i ∈ w.pathIndices, i = 0 ∨ i = 1 := fun i hi =>
      binary_of_constraint i (by simpa using hbin i hi)
    refine ⟨hbin2, ?_⟩
    rw [hroot]
    exact merkleChain_eq_spec h _ _ (fun pe hpe =>
      hbin2 pe.2 (List.of_mem_zip hpe).2)
  · rintro ⟨hbin2, hroot⟩
    refine ⟨⟨by exact_mod_cast hlen, fun i hi => by
      simpa using constraint_of_binary i (hbin2 i hi)⟩, ?_⟩
    rw [hroot]
    exact (merkleChain_eq_spec h _ _ (fun pe hpe =>
      hbin2 pe.2 (List.of_mem_zip hpe).2)).symm

/-- Concrete stand-in hash over the field, used only to instantiate
witnesses. -/
def listHashF : HashF := fun l => l.foldl (· + ·) 7

/-- Witness for C6: a depth-2 instance accepted through the iff. -/
theorem registry_accept_iff_witness :
    registryHolds listHashF ⟨4, [9, 3], [0, 1], 37⟩ = true :=
  (registry_accept_iff listHashF ⟨4, [9, 3], [0, 1], 37⟩ rfl).mpr
    ⟨by decide, by decide⟩

/-! ## Nullifier registry (`conductme/bridge/src/identity.ts`,
class `NullifierRegistry`) -/

/-- State of `NullifierRegistry`: the `usedNullifiers` set of nullifier
hashes (decimal strings of field elements, modelled as numbers; the
TypeScript `Set` is modelled by membership in a list). -/
structure NullifierRegistry where
  usedNullifiers : List Nat
deriving Repr, DecidableEq

def NullifierRegistry.empty : NullifierRegistry := ⟨[]⟩

/-- `markUsed(nullifierHash)`: returns `false` if the hash is already
present, otherwise records it and returns `true`.  The method takes no
scope argument. -/
def NullifierRegistry.markUsed (r : NullifierRegistry) (n : Nat) :
    Bool × NullifierRegistry :=
  if n ∈ r.usedNullifiers then (false, r)
  else (true, ⟨n :: r.usedNullifiers⟩)

/-- `isUsed(nullifierHash)`. -/
def NullifierRegistry.isUsed (r : NullifierRegistry) (n : Nat) : Bool :=
  n ∈ r.usedNullifiers

/-- Modelled from the spec: the scoped interface
`markUsed(nullifier, scope)` that the specification describes.  The
registry method in the source accepts only the nullifier hash, so a
scoped call can pass nothing but the nullifier and the scope argument
cannot influence the outcome. -/
def NullifierRegistry.markUsedScoped (r : NullifierRegistry) (n _scope : Nat) :
    Bool × NullifierRegistry :=
  r.markUsed n

/-- C4 counterexample: marking the same nullifier from two different
scopes returns `true` then `false` — the claim says both calls return
`true` when the scopes differ, but the registry is keyed on the
nullifier hash alone. -/
theorem markUsed_scope_counterexample :
    ((NullifierRegistry.empty.markUsedScoped 7 1).1 = true) ∧
    (((NullifierRegistry.empty.markUsedScoped 7 1).2.markUsedScoped 7 2).1 = false) := by
  constructor
  · decide
  · decide

/-- C4 (amended): `markUsed` takes only the nullifier hash.  The first
call on a fresh nullifier returns `true`; any call immediately following
a `markUsed` of the same nullifier returns `false` (whatever scope the
caller had in mind); after a successful `markUsed(n)`, `isUsed(n)` is
`true`; and two distinct nullifiers are each marked fresh. -/
theorem markUsed_amended (r : NullifierRegistry) (n m : Nat) :
    ((r.markUsed n).1 = true ↔ r.isUsed n = false) ∧
    (((r.markUsed n).2.markUsed n).1 = false) ∧
    ((r.markUsed n).1 = true → (r.markUsed n).2.isUsed n = true) ∧
    (n ≠ m → (NullifierRegistry.empty.markUsed n).1 = true ∧
      ((NullifierRegistry.empty.markUsed n).2.markUsed m).1 = true) := by
  unfold NullifierRegistry.markUsed NullifierRegistry.isUsed NullifierRegistry.empty
  by_cases hm : n ∈ r.usedNullifiers
  · refine ⟨by simp [hm], by simp [hm], by simp [hm], fun hnm => ?_⟩
    simp [List.mem_singleton, hnm, Ne.symm hnm]
  · refine ⟨by simp [hm], by simp [hm], by simp [hm], fun hnm => ?_⟩
    simp [List.mem_singleton, hnm, Ne.symm hnm]

/-- Witness for C4: distinct nullifiers `7` and `9` are both marked
fresh from the empty registry. -/
theorem markUsed_amended_witness :
    (NullifierRegistry.empty.markUsed 7).1 = true ∧
    ((NullifierRegistry.empty.markUsed 7).2.markUsed 9).1 = true :=
  (markUsed_amended NullifierRegistry.empty 7 9).2.2.2 (by decide)

/-! ## ConductMe group (`conductme/bridge/src/identity.ts`,
class `ConductMeGroup`)

The wrapper class delegates the tree itself to the external Semaphore
`Group`; the tree behaviour (pairwise hashing with an odd trailing node
carried up, zero as removal sentinel, root recomputed from the leaves on
import) is modelled from the spec, while the wrapper methods follow the
source. -/

/-- First index of a value in a leaf list (TypeScript `indexOf`,
expressed as an option instead of `-1`). -/
def idxOf (c : Nat) : List Nat → Option Nat
  | [] => none
  | x :: xs => if x = c then some 0 else (idxOf c xs).map (· + 1)

lemma idxOf_eq_none (c : Nat) (l : List Nat) :
    idxOf c l = none ↔ c ∉ l := by
  induction l with
  | nil => simp [idxOf]
  | cons x xs ih =>
    simp only [idxOf, List.mem_cons]
    by_cases hx : x = c
    · simp [hx]
    · rw [if_neg hx]
      have hcx : ¬ c = x := fun hc => hx hc.symm
      cases hxs : idxOf c xs with
      | none =>
        have hmem : c ∉ xs := ih.mp hxs
        simp [hcx, hmem]
      | some i =>
        have hmem : c ∈ xs := by
          by_contra hmem
          rw [ih.mpr hmem] at hxs
          exact Option.noConfusion hxs
        simp [hmem]

/-- Modelled from the spec: one level of the binary tree backing the
group — children hashed pairwise, an odd trailing node carried up. -/
def hashLevelN (h : Hash) : List Nat → List Nat
  | a :: b :: rest => (h [a, b] % p) :: hashLevelN h rest
  | l => l

/-- Modelled from the spec: the root as a pure function of the ordered
leaf list (fuel-indexed level reduction; the leaf count bounds the
number of levels). -/
def computeRootAux (h : Hash) : Nat → List Nat → Nat
  | _, [] => 0
  | _, [a] => a
  | 0, _ => 0
  | fuel+1, l => computeRootAux h fuel (hashLevelN h l)

def computeRoot (h : Hash) (leaves : List Nat) : Nat :=
  computeRootAux h leaves.length leaves

/-- State of `ConductMeGroup`: the group id, the ordered leaf list of the
backing tree, and its current root. -/
structure ConductMeGroup where
  groupId : Nat
  leaves : List Nat
  root : Nat
deriving Repr, DecidableEq

/-- `new ConductMeGroup(groupId)`: an empty tree. -/
def ConductMeGroup.ofId (h : Hash) (gid : Nat) : ConductMeGroup :=
  ⟨gid, [], computeRoot h []⟩

/-- `addMember(commitment)`: append the commitment and update the root. -/
def ConductMeGroup.addMember (h : Hash) (g : ConductMeGroup) (c : Nat) :
    ConductMeGroup :=
  ⟨g.groupId, g.leaves ++ [c], computeRoot h (g.leaves ++ [c])⟩

/-- `removeMember(commitment)`: look up the index; when the commitment is
absent (`indexOf` returns `-1`) nothing happens; when present, the leaf
is set to the zero sentinel and the root updated. -/
def ConductMeGroup.removeMember (h : Hash) (g : ConductMeGroup) (c : Nat) :
    ConductMeGroup :=
  match idxOf c g.leaves with
  | none => g
  | some i => ⟨g.groupId, g.leaves.set i 0, computeRoot h (g.leaves.set i 0)⟩

/-- Error type of the specification for the group store. -/
inductive GroupError
  | NotFound
deriving Repr, DecidableEq

/-- Modelled from the spec: `removeMember` locates the index, sets the
leaf to the sentinel and recomputes the root along the path, and fails
with `NotFound` if the commitment is absent. -/
def removeMemberSpec (h : Hash) (g : ConductMeGroup) (c : Nat) :
    Except GroupError ConductMeGroup :=
  match idxOf c g.leaves with
  | none => .error .NotFound
  | some i => .ok ⟨g.groupId, g.leaves.set i 0, computeRoot h (g.leaves.set i 0)⟩

/-- C7 counterexample: removing an absent commitment silently leaves the
group unchanged, while the claimed behaviour fails with `NotFound`. -/
theorem removeMember_absent_counterexample :
    ConductMeGroup.removeMember (fun l => l.foldl fadd 0) ⟨1, [3, 5], 8⟩ 9 =
      ⟨1, [3, 5], 8⟩ ∧
    removeMemberSpec (fun l => l.foldl fadd 0) ⟨1, [3, 5], 8⟩ 9 =
      Except.error GroupError.NotFound := by
  exact ⟨rfl, rfl⟩

/-- C7 (amended): `removeMember` is a silent no-op when the commitment is
absent (no `NotFound` failure is raised); when the commitment is present
at index `i`, the leaf at `i` is set to the zero sentinel and the root is
recomputed for the updated leaves. -/
theorem removeMember_amended (h : Hash) (g : ConductMeGroup) (c : Nat) :
    (c ∉ g.leaves → ConductMeGroup.removeMember h g c = g) ∧
    (∀ i, idxOf c g.leaves = some i →
      ConductMeGroup.removeMember h g c =
        ⟨g.groupId, g.leaves.set i 0, computeRoot h (g.leaves.set i 0)⟩) := by
  constructor
  · intro hmem
    unfold ConductMeGroup.removeMember
    rw [(idxOf_eq_none c g.leaves).mpr hmem]
  · intro i hix
    unfold ConductMeGroup.removeMember
    rw [hix]

/-- Witness for C7 (amended): removing the member `5`, present at index
`1`, zeroes that leaf and recomputes the root. -/
theorem removeMember_amended_witness :
    ConductMeGroup.removeMember (fun l => l.foldl fadd 0) ⟨1, [3, 5], 8⟩ 5 =
      ⟨1, [3, 0], 3⟩ :=
  (removeMember_amended (fun l => l.foldl fadd 0) ⟨1, [3, 5], 8⟩ 5).2 1 (by decide)

/-! ## Group export / import -/

/-- The export payload: group id plus the ordered leaf list
(`group.export()` of the backing tree serialises the leaves). -/
structure GroupExport where
  groupId : Nat
  groupData : List Nat
deriving Repr, DecidableEq

/-- `export()`: serialise the group id and the tree leaves. -/
def ConductMeGroup.exportG (g : ConductMeGroup) : GroupExport :=
  ⟨g.groupId, g.leaves⟩

/-- `ConductMeGroup.import(data)`: rebuild a group whose tree is
reconstructed from the exported leaves; the root is recomputed from the
leaf list. -/
def ConductMeGroup.importG (h : Hash) (d : GroupExport) : ConductMeGroup :=
  ⟨d.groupId, d.groupData, computeRoot h d.groupData⟩

/-- Reachable group states: freshly constructed, or obtained by
`addMember`, `removeMember`, or an export/import round trip. -/
inductive ReachableGroup (h : Hash) : ConductMeGroup → Prop
  | new (gid : Nat) : ReachableGroup h (ConductMeGroup.ofId h gid)
  | add (g : ConductMeGroup) (c : Nat) :
      ReachableGroup h g → ReachableGroup h (ConductMeGroup.addMember h g c)
  | remove (g : ConductMeGroup) (c : Nat) :
      ReachableGroup h g → ReachableGroup h (ConductMeGroup.removeMember h g c)
  | imported (g : ConductMeGroup) :
      ReachableGroup h g → ReachableGroup h (ConductMeGroup.importG h g.exportG)

/-- In every reachable state the cached root is the root function of the
current leaves. -/
lemma reachable_root_inv (h : Hash) (g : ConductMeGroup)
    (hg : ReachableGroup h g) : g.root = computeRoot h g.leaves := by
  induction hg with
  | new gid => rfl
  | add g c _ _ => rfl
  | remove g c _ ih =>
    unfold ConductMeGroup.removeMember
    cases hix : idxOf c g.leaves with
    | none => simpa [hix] using ih
    | some i => simp [hix]
  | imported g _ _ => rfl

/-- C9: for every reachable group state, exporting the group and
importing the export yields a group with the same root. -/
theorem group_export_import_root (h : Hash) (g : ConductMeGroup)
    (hg : ReachableGroup h g) :
    (ConductMeGroup.importG h g.exportG).root = g.root :=
  (reachable_root_inv h g hg).symm

/-- Witness for C9: export/import of the one-member group preserves the
root. -/
theorem group_export_import_root_witness :
    (ConductMeGroup.importG (fun l => l.foldl fadd 0)
      ((ConductMeGroup.addMember (fun l => l.foldl fadd 0)
        (ConductMeGroup.ofId (fun l => l.foldl fadd 0) 1) 3).exportG)).root =
    (ConductMeGroup.addMember (fun l => l.foldl fadd 0)
      (ConductMeGroup.ofId (fun l => l.foldl fadd 0) 1) 3).root :=
  group_export_import_root (fun l => l.foldl fadd 0) _
    (ReachableGroup.add _ 3 (ReachableGroup.new 1))

/-! ## Identity manager (`conductme/bridge/src/identity.ts`,
`createIdentity` / `recoverIdentity`) -/

/-- Modelled from the spec: the external Semaphore `Identity` — the
secret scalar is derived from the seed by a fixed key-derivation step
`kdf`, the commitment is `Hash(secretScalar)`, `export` returns the
encoded private key, and `Identity.import` deterministically rebuilds
the same identity from it. -/
structure SemaphoreIdentity where
  privateKey : Nat
  secretScalar : Nat
  commitment : Nat
deriving Repr, DecidableEq

/-- `new Identity(seed)`. -/
def identityOfSeed (h : Hash) (kdf : Nat → Nat) (seed : Nat) : SemaphoreIdentity :=
  ⟨seed, kdf seed % p, h [kdf seed % p] % p⟩

/-- `identity.export()`. -/
def identityExport (i : SemaphoreIdentity) : Nat := i.privateKey

/-- `Identity.import(privateKey)`: deterministic rebuild from the
exported key. -/
def identityRecover (h : Hash) (kdf : Nat → Nat) (pk : Nat) : SemaphoreIdentity :=
  identityOfSeed h kdf pk

/-- The `ConductMeIdentity` record returned by `createIdentity` and
`recoverIdentity`. -/
structure ConductMeIdentity where
  commitment : Nat
  privateKey : Nat
  secretScalar : Nat
  createdAt : Nat
  verified : Bool
deriving Repr, DecidableEq

/-- `createIdentity(entropy)` with the entropy supplied (when entropy is
omitted the source draws fresh randomness and follows the same path);
`now` stands for `Date.now()`. -/
def createIdentity (h : Hash) (kdf : Nat → Nat) (seed now : Nat) :
    ConductMeIdentity :=
  ⟨(identityOfSeed h kdf seed).commitment,
    identityExport (identityOfSeed h kdf seed),
    (identityOfSeed h kdf seed).secretScalar, now, false⟩

/-- `recoverIdentity(privateKey)`. -/
def recoverIdentity (h : Hash) (kdf : Nat → Nat) (pk now : Nat) :
    ConductMeIdentity :=
  ⟨(identityRecover h kdf pk).commitment, pk,
    (identityRecover h kdf pk).secretScalar, now, true⟩

/-- C8: recovering from the exported private key of a freshly created
identity reproduces the commitment returned at creation time, for every
seed and independently of the two creation clocks. -/
theorem identity_roundtrip (h : Hash) (kdf : Nat → Nat) (seed now1 now2 : Nat) :
    (recoverIdentity h kdf (createIdentity h kdf seed now1).privateKey now2).commitment =
      (createIdentity h kdf seed now1).commitment := rfl

end Honestly
